import Mathlib

/-
Shallow embedding of the pico-bf brainfuck interpreter, src/main.cpp.

The interpreter state mirrors struct brainfuck_vm_status: the tape is a
sparse map from signed cell index to an 8-bit value, here a total
function from Int to Nat kept below 256, defaulting to zero exactly as
std::map operator[] default-constructs absent cells.  I/O is made
explicit: putchar appends to an output list, getchar consumes from an
input list.  The recursive interpreter run_vm, and the two nested while
loops inside its loop_end_op handler, become one fuel-indexed structural
recursion exec over a call-kind tag; running out of fuel, reading top()
of an empty loop stack, and indexing the instruction vector out of range
are explicit error outcomes.
-/

namespace PicoBf

/-- The nine operation tags of the C++ brainfuck_op variant, including
std::monostate for characters that are not brainfuck operations. -/
inductive BfOp where
  | increment_value_op
  | decrement_value_op
  | increment_ptr_op
  | decrement_ptr_op
  | print_op
  | read_op
  | loop_start_op
  | loop_end_op
  | monostate
deriving DecidableEq

/-- The map bf_op_map from characters to operations (src/main.cpp lines
49 to 58); any other character maps to monostate. -/
def bf_op_map (c : Char) : BfOp :=
  if c = '+' then .increment_value_op
  else if c = '-' then .decrement_value_op
  else if c = '>' then .increment_ptr_op
  else if c = '<' then .decrement_ptr_op
  else if c = '.' then .print_op
  else if c = ',' then .read_op
  else if c = '[' then .loop_start_op
  else if c = ']' then .loop_end_op
  else .monostate

/-- The interpreter state, struct brainfuck_vm_status (src/main.cpp
lines 63 to 81), extended with explicit output and input streams for
putchar and getchar. -/
structure BfStatus where
  tape : Int → Nat
  tape_ptr : Int
  instruction : List Char
  instruction_ptr_current : Int
  instruction_loop_ptr : List Int
  jump_loop : Int
  output : List Nat
  input : List Nat

/-- A fresh VM state: empty tape (all cells default to zero), pointer at
cell 0, no buffered instructions, instruction pointer minus one, empty
loop stack, skip depth zero. -/
def initStatus : BfStatus :=
  { tape := fun _ => 0
    tape_ptr := 0
    instruction := []
    instruction_ptr_current := -1
    instruction_loop_ptr := []
    jump_loop := 0
    output := []
    input := [] }

/-- Pointwise update of the tape function at one cell. -/
def updateTape (t : Int → Nat) (i : Int) (v : Nat) : Int → Nat :=
  fun j => if j = i then v else t j

/-- Appending an accepted character to the instruction buffer and
advancing instruction_ptr_current, as next_op does when via_loop is
false. -/
def appendIns (s : BfStatus) (c : Char) : BfStatus :=
  { s with instruction := s.instruction ++ [c]
           instruction_ptr_current := s.instruction_ptr_current + 1 }

/-- The helper next_op (src/main.cpp lines 93 to 111): decode the
character; if it is a brainfuck operation and via_loop is false, buffer
it and advance the instruction pointer; an unmapped character yields
monostate and leaves the state untouched. -/
def next_op (s : BfStatus) (char_op : Char) (via_loop : Bool) : BfOp × BfStatus :=
  match bf_op_map char_op with
  | .monostate => (.monostate, s)
  | op => if via_loop then (op, s) else (op, appendIns s char_op)

/-- Reading the instruction buffer at a signed index, guarded: a
negative or out-of-range index (undefined behaviour of
std::vector operator[] in the source) yields none. -/
def instrGet (l : List Char) (i : Int) : Option Char :=
  if 0 ≤ i then l.get? i.toNat else none

/-- Error outcomes of the guarded embedding: fuel exhaustion of the
fuel-indexed recursion, top() or pop() on an empty loop stack, and an
out-of-range instruction index. -/
inductive VmErr where
  | outOfFuel
  | emptyStack
  | badIndex
deriving DecidableEq

/-- Call kinds of the interpreter recursion: vm c via is one run_vm call
on character c; loop is the outer while of the loop_end_op handler
(lines 205 to 218), one iteration per pass over the loop body; body stop
is the inner while (lines 212 to 215), stepping
instruction_ptr_current up to stop. -/
inductive ExecCall where
  | vm (char_op : Char) (via_loop : Bool)
  | loop
  | body (stop : Int)

/-- The interpreter run_vm (src/main.cpp lines 122 to 228) as one
fuel-indexed structural recursion over all three call kinds.  Each
handler suppresses its side effect when jump_loop is nonzero; the
loop_start_op handler pushes the current instruction index when the
cell is nonzero and no skip is active, else increments jump_loop; the
loop_end_op handler decrements a nonzero jump_loop, and otherwise, when
the cell is nonzero, replays the buffered body from top of the loop
stack plus one up to the current position until the cell is zero, then
pops -- when the cell is already zero it returns with no change at all
(in particular the loop stack is not popped, exactly as in the source,
where the pop statement sits inside the nonzero-cell branch). -/
def exec : Nat → ExecCall → BfStatus → Except VmErr BfStatus
  | 0, _, _ => .error .outOfFuel
  | fuel+1, .vm char_op via_loop, s0 =>
    match next_op s0 char_op via_loop with
    | (op, s) =>
      match op with
      | .increment_value_op =>
        .ok (if s.jump_loop = 0
          then { s with tape := updateTape s.tape s.tape_ptr ((s.tape s.tape_ptr + 1) % 256) }
          else s)
      | .decrement_value_op =>
        .ok (if s.jump_loop = 0
          then { s with tape := updateTape s.tape s.tape_ptr ((s.tape s.tape_ptr + 255) % 256) }
          else s)
      | .increment_ptr_op =>
        .ok (if s.jump_loop = 0 then { s with tape_ptr := s.tape_ptr + 1 } else s)
      | .decrement_ptr_op =>
        .ok (if s.jump_loop = 0 then { s with tape_ptr := s.tape_ptr - 1 } else s)
      | .print_op =>
        .ok (if s.jump_loop = 0 then { s with output := s.output ++ [s.tape s.tape_ptr] } else s)
      | .read_op =>
        .ok (if s.jump_loop = 0
          then { s with tape := updateTape s.tape s.tape_ptr (s.input.headD 0 % 256)
                        input := s.input.tail }
          else s)
      | .loop_start_op =>
        .ok (if s.tape s.tape_ptr ≠ 0 ∧ s.jump_loop = 0
          then { s with instruction_loop_ptr := s.instruction_ptr_current :: s.instruction_loop_ptr }
          else { s with jump_loop := s.jump_loop + 1 })
      | .loop_end_op =>
        if s.jump_loop ≠ 0 then .ok { s with jump_loop := s.jump_loop - 1 }
        else if s.tape s.tape_ptr ≠ 0 then
          match exec fuel .loop s with
          | .error e => .error e
          | .ok s1 =>
            match s1.instruction_loop_ptr with
            | [] => .error .emptyStack
            | _ :: rest => .ok { s1 with instruction_loop_ptr := rest }
        else .ok s
      | .monostate => .ok s
  | fuel+1, .loop, s =>
    if s.tape s.tape_ptr = 0 then .ok s
    else
      match s.instruction_loop_ptr with
      | [] => .error .emptyStack
      | top :: _ =>
        match exec fuel (.body s.instruction_ptr_current)
              { s with instruction_ptr_current := top + 1 } with
        | .error e => .error e
        | .ok s1 =>
          exec fuel .loop { s1 with instruction_ptr_current := s.instruction_ptr_current }
  | fuel+1, .body stop, s =>
    if s.instruction_ptr_current < stop then
      match instrGet s.instruction s.instruction_ptr_current with
      | none => .error .badIndex
      | some c =>
        match exec fuel (.vm c true) s with
        | .error e => .error e
        | .ok s1 =>
          exec fuel (.body stop) { s1 with instruction_ptr_current := s1.instruction_ptr_current + 1 }
    else .ok s

/-- One run_vm call (src/main.cpp line 122). -/
def run_vm (fuel : Nat) (s : BfStatus) (char_op : Char) (via_loop : Bool) :
    Except VmErr BfStatus :=
  exec fuel (.vm char_op via_loop) s

/-- Feeding a list of characters one at a time, the interpretation loop
of run_bf (src/main.cpp lines 264 to 267), each character processed by
run_vm with the given fuel. -/
def run_program (fuel : Nat) (s : BfStatus) : List Char → Except VmErr BfStatus
  | [] => .ok s
  | c :: cs =>
    match run_vm fuel s c false with
    | .error e => .error e
    | .ok s1 => run_program fuel s1 cs

/-- Written from the spec's words for one pass of the loop body: with
the Instruction Pointer already set to (top of Loop Start Stack + 1),
re-execute, one operation at a time via the same transition logic
(run_vm with via_loop true, so nothing is re-appended to Instruction
History), every buffered instruction up to but not including the stop
position, the current loop-end position. -/
def spec_pass : Nat → BfStatus → Int → Except VmErr BfStatus
  | 0, _, _ => .error .outOfFuel
  | fuel+1, s, stop =>
    if s.instruction_ptr_current < stop then
      match instrGet s.instruction s.instruction_ptr_current with
      | none => .error .badIndex
      | some c =>
        match run_vm fuel s c true with
        | .error e => .error e
        | .ok s1 =>
          spec_pass fuel { s1 with instruction_ptr_current := s1.instruction_ptr_current + 1 } stop
    else .ok s

/-- Written from the spec's words for the repeat cycle of loop-end:
while the condition cell remains nonzero, set the Instruction Pointer to
(top of Loop Start Stack + 1), replay one pass of the body up to the
current loop-end position, restore the Instruction Pointer, and re-test
the condition. -/
def spec_repeat : Nat → BfStatus → Except VmErr BfStatus
  | 0, _ => .error .outOfFuel
  | fuel+1, s =>
    if s.tape s.tape_ptr = 0 then .ok s
    else
      match s.instruction_loop_ptr with
      | [] => .error .emptyStack
      | top :: _ =>
        match spec_pass fuel { s with instruction_ptr_current := top + 1 }
              s.instruction_ptr_current with
        | .error e => .error e
        | .ok s1 =>
          spec_repeat fuel { s1 with instruction_ptr_current := s.instruction_ptr_current }

/-- Written from the spec's words for the whole nonzero-condition
loop-end behaviour: run the repeat cycle, and only once the condition is
finally false pop the Loop Start Stack entry. -/
def spec_loop_end (fuel : Nat) (s : BfStatus) : Except VmErr BfStatus :=
  match spec_repeat fuel s with
  | .error e => .error e
  | .ok s1 =>
    match s1.instruction_loop_ptr with
    | [] => .error .emptyStack
    | _ :: rest => .ok { s1 with instruction_loop_ptr := rest }

/-- Balanced sequences of the two bracket characters: empty, a balanced
sequence wrapped in a matching bracket pair, or two balanced sequences
in a row. -/
inductive BalancedBrackets : List Char → Prop where
  | nil : BalancedBrackets []
  | wrap {b : List Char} : BalancedBrackets b → BalancedBrackets ('[' :: (b ++ [']']))
  | append {a b : List Char} :
      BalancedBrackets a → BalancedBrackets b → BalancedBrackets (a ++ b)

theorem BfStatus.ext' {a b : BfStatus} (h1 : a.tape = b.tape) (h2 : a.tape_ptr = b.tape_ptr)
    (h3 : a.instruction = b.instruction)
    (h4 : a.instruction_ptr_current = b.instruction_ptr_current)
    (h5 : a.instruction_loop_ptr = b.instruction_loop_ptr) (h6 : a.jump_loop = b.jump_loop)
    (h7 : a.output = b.output) (h8 : a.input = b.input) : a = b := by
  cases a; cases b; simp_all

@[simp] theorem appendIns_tape (s : BfStatus) (c : Char) : (appendIns s c).tape = s.tape := rfl

@[simp] theorem appendIns_tape_ptr (s : BfStatus) (c : Char) :
    (appendIns s c).tape_ptr = s.tape_ptr := rfl

@[simp] theorem appendIns_instruction (s : BfStatus) (c : Char) :
    (appendIns s c).instruction = s.instruction ++ [c] := rfl

@[simp] theorem appendIns_ipc (s : BfStatus) (c : Char) :
    (appendIns s c).instruction_ptr_current = s.instruction_ptr_current + 1 := rfl

@[simp] theorem appendIns_loop_ptr (s : BfStatus) (c : Char) :
    (appendIns s c).instruction_loop_ptr = s.instruction_loop_ptr := rfl

@[simp] theorem appendIns_jump (s : BfStatus) (c : Char) :
    (appendIns s c).jump_loop = s.jump_loop := rfl

@[simp] theorem appendIns_output (s : BfStatus) (c : Char) :
    (appendIns s c).output = s.output := rfl

@[simp] theorem appendIns_input (s : BfStatus) (c : Char) : (appendIns s c).input = s.input := rfl

theorem next_op_true (s : BfStatus) (c : Char) : next_op s c true = (bf_op_map c, s) := by
  unfold next_op
  cases h : bf_op_map c <;> simp [h]

theorem next_op_feed (s : BfStatus) (c : Char) (h : bf_op_map c ≠ .monostate) :
    next_op s c false = (bf_op_map c, appendIns s c) := by
  unfold next_op
  cases hh : bf_op_map c <;> simp_all

theorem next_op_invalid (s : BfStatus) (c : Char) (v : Bool) (h : bf_op_map c = .monostate) :
    next_op s c v = (.monostate, s) := by
  unfold next_op
  rw [h]

theorem run_vm_plus (n : Nat) (s : BfStatus) (h : s.jump_loop = 0) :
    run_vm (n+1) s '+' false =
      .ok { appendIns s '+' with
            tape := updateTape s.tape s.tape_ptr ((s.tape s.tape_ptr + 1) % 256) } := by
  show exec (n+1) (.vm '+' false) s = _
  rw [exec, next_op_feed s '+' (by decide)]
  simp [bf_op_map, h]

theorem run_vm_minus (n : Nat) (s : BfStatus) (h : s.jump_loop = 0) :
    run_vm (n+1) s '-' false =
      .ok { appendIns s '-' with
            tape := updateTape s.tape s.tape_ptr ((s.tape s.tape_ptr + 255) % 256) } := by
  show exec (n+1) (.vm '-' false) s = _
  rw [exec, next_op_feed s '-' (by decide)]
  simp [bf_op_map, h]

theorem run_vm_simple_skip (n : Nat) (s : BfStatus) (c : Char)
    (hc : c ∈ ['+', '-', '>', '<', '.', ',']) (h : s.jump_loop ≠ 0) :
    run_vm (n+1) s c false = .ok (appendIns s c) := by
  fin_cases hc <;>
    (show exec _ _ _ = _
     rw [exec, next_op_feed _ _ (by decide)]
     simp [bf_op_map, h])

theorem run_vm_lbr_push (n : Nat) (s : BfStatus) (h0 : s.jump_loop = 0)
    (hc : s.tape s.tape_ptr ≠ 0) :
    run_vm (n+1) s '[' false =
      .ok { appendIns s '[' with
            instruction_loop_ptr := (s.instruction_ptr_current + 1) :: s.instruction_loop_ptr } := by
  show exec (n+1) (.vm '[' false) s = _
  rw [exec, next_op_feed s '[' (by decide)]
  simp [bf_op_map, h0, hc]

theorem run_vm_lbr_skipstart (n : Nat) (s : BfStatus) (h0 : s.jump_loop = 0)
    (hc : s.tape s.tape_ptr = 0) :
    run_vm (n+1) s '[' false = .ok { appendIns s '[' with jump_loop := 1 } := by
  show exec (n+1) (.vm '[' false) s = _
  rw [exec, next_op_feed s '[' (by decide)]
  simp [bf_op_map, h0, hc]

theorem run_vm_lbr_skipinc (n : Nat) (s : BfStatus) (h : s.jump_loop ≠ 0) :
    run_vm (n+1) s '[' false =
      .ok { appendIns s '[' with jump_loop := s.jump_loop + 1 } := by
  show exec (n+1) (.vm '[' false) s = _
  rw [exec, next_op_feed s '[' (by decide)]
  simp [bf_op_map, h]

theorem run_vm_rbr_skipdec (n : Nat) (s : BfStatus) (h : s.jump_loop ≠ 0) :
    run_vm (n+1) s ']' false =
      .ok { appendIns s ']' with jump_loop := s.jump_loop - 1 } := by
  show exec (n+1) (.vm ']' false) s = _
  rw [exec, next_op_feed s ']' (by decide)]
  simp [bf_op_map, h]

theorem run_vm_rbr_zero (n : Nat) (s : BfStatus) (h0 : s.jump_loop = 0)
    (hc : s.tape s.tape_ptr = 0) :
    run_vm (n+1) s ']' false = .ok (appendIns s ']') := by
  show exec (n+1) (.vm ']' false) s = _
  rw [exec, next_op_feed s ']' (by decide)]
  simp [bf_op_map, h0, hc]

theorem run_vm_rbr_replay (n : Nat) (s : BfStatus) (h0 : s.jump_loop = 0)
    (hc : s.tape s.tape_ptr ≠ 0) :
    run_vm (n+1) s ']' false =
      match exec n .loop (appendIns s ']') with
      | .error e => .error e
      | .ok s1 =>
        match s1.instruction_loop_ptr with
        | [] => .error .emptyStack
        | _ :: rest => .ok { s1 with instruction_loop_ptr := rest } := by
  show exec (n+1) (.vm ']' false) s = _
  rw [exec, next_op_feed s ']' (by decide)]
  simp [bf_op_map, h0, hc]

theorem spec_pass_eq : ∀ (f : Nat) (s : BfStatus) (stop : Int),
    spec_pass f s stop = exec f (.body stop) s := by
  intro f
  induction f with
  | zero => intro s stop; rfl
  | succ n ih =>
    intro s stop
    rw [spec_pass, exec]
    simp only [run_vm, ih]

theorem spec_repeat_eq : ∀ (f : Nat) (s : BfStatus), spec_repeat f s = exec f .loop s := by
  intro f
  induction f with
  | zero => intro s; rfl
  | succ n ih =>
    intro s
    rw [spec_repeat, exec]
    simp only [spec_pass_eq, ih]

theorem run_program_append (f : Nat) : ∀ (a b : List Char) (s : BfStatus),
    run_program f s (a ++ b) =
      match run_program f s a with
      | .error e => .error e
      | .ok t => run_program f t b := by
  intro a
  induction a with
  | nil => intro b s; rfl
  | cons c cs ih =>
    intro b s
    rw [List.cons_append, run_program, run_program]
    cases run_vm f s c false <;> simp [ih]

theorem run_program_cons_ok (f : Nat) (s s1 : BfStatus) (c : Char) (cs : List Char)
    (h : run_vm f s c false = .ok s1) :
    run_program f s (c :: cs) = run_program f s1 cs := by
  rw [run_program, h]

theorem run_program_append_ok (f : Nat) (s t : BfStatus) (a b : List Char)
    (h : run_program f s a = .ok t) :
    run_program f s (a ++ b) = run_program f t b := by
  rw [run_program_append, h]

theorem run_program_balanced {cs : List Char} (hb : BalancedBrackets cs) :
    ∀ (s : BfStatus) (n : Nat), 0 < s.jump_loop →
      run_program (n+1) s cs =
        .ok { s with instruction := s.instruction ++ cs,
                     instruction_ptr_current := s.instruction_ptr_current + cs.length } := by
  induction hb with
  | nil =>
    intro s n h
    simp [run_program]
  | @wrap b hb ih =>
    intro s n h
    have h1 := run_vm_lbr_skipinc n s (by omega)
    rw [run_program_cons_ok (n+1) s _ '[' (b ++ [']']) h1]
    rw [run_program_append_ok (n+1) _ _ b [']']
      (ih { appendIns s '[' with jump_loop := s.jump_loop + 1 } n (by simp; omega))]
    rw [run_program_cons_ok (n+1) _ _ ']' []
      (run_vm_rbr_skipdec n _ (by simp; omega))]
    rw [run_program]
    refine congrArg Except.ok (BfStatus.ext' ?_ ?_ ?_ ?_ ?_ ?_ ?_ ?_) <;> simp
    ring
  | @append a b ha hb iha ihb =>
    intro s n h
    rw [run_program_append_ok (n+1) s _ a b (iha s n h)]
    rw [ihb _ n (by simp; omega)]
    refine congrArg Except.ok (BfStatus.ext' ?_ ?_ ?_ ?_ ?_ ?_ ?_ ?_) <;> simp
    ring

theorem next_op_snd (s : BfStatus) (c : Char) (v : Bool) :
    (next_op s c v).2 = s ∨ (next_op s c v).2 = appendIns s c := by
  cases v <;> unfold next_op <;> cases h : bf_op_map c <;> simp [h]

theorem exec_replay_instruction : ∀ (fuel : Nat),
    (∀ (c : Char) (s s' : BfStatus),
      exec fuel (.vm c true) s = .ok s' → s'.instruction = s.instruction) ∧
    (∀ (s s' : BfStatus), exec fuel .loop s = .ok s' → s'.instruction = s.instruction) ∧
    (∀ (stop : Int) (s s' : BfStatus),
      exec fuel (.body stop) s = .ok s' → s'.instruction = s.instruction) := by
  intro fuel
  induction fuel with
  | zero =>
    refine ⟨?_, ?_, ?_⟩
    · intro c s s' h; simp [exec] at h
    · intro s s' h; simp [exec] at h
    · intro stop s s' h; simp [exec] at h
  | succ n ih =>
    obtain ⟨ihv, ihl, ihb⟩ := ih
    refine ⟨?_, ?_, ?_⟩
    · intro c s s' h
      rw [exec, next_op_true] at h
      cases hop : bf_op_map c <;> rw [hop] at h
      case loop_end_op =>
        simp only [ne_eq] at h
        split at h
        · simp only [Except.ok.injEq] at h; subst h; rfl
        · split at h
          · split at h
            next e he => simp at h
            next s1 he =>
              split at h
              · simp at h
              · simp only [Except.ok.injEq] at h; subst h
                simpa using ihl s s1 he
          · simp only [Except.ok.injEq] at h; subst h; rfl
      all_goals (simp only [Except.ok.injEq] at h; subst h)
      case monostate => rfl
      all_goals (split <;> rfl)
    · intro s s' h
      rw [exec] at h
      split at h
      · simp only [Except.ok.injEq] at h; subst h; rfl
      · split at h
        · simp at h
        next top rest hst =>
          split at h
          next e he => simp at h
          next s1 he =>
            have e1 := ihb _ _ _ he
            have e2 := ihl _ _ h
            simp at e1 e2
            exact e2.trans e1
    · intro stop s s' h
      rw [exec] at h
      split at h
      · split at h
        · simp at h
        next c hg =>
          split at h
          next e he => simp at h
          next s1 he =>
            have e1 := ihv _ _ _ he
            have e2 := ihb _ _ _ h
            simp at e2
            exact e2.trans e1
      · simp only [Except.ok.injEq] at h; subst h; rfl

theorem exec_jump_nonneg : ∀ (fuel : Nat),
    (∀ (c : Char) (v : Bool) (s s' : BfStatus),
      exec fuel (.vm c v) s = .ok s' → 0 ≤ s.jump_loop → 0 ≤ s'.jump_loop) ∧
    (∀ (s s' : BfStatus), exec fuel .loop s = .ok s' → 0 ≤ s.jump_loop → 0 ≤ s'.jump_loop) ∧
    (∀ (stop : Int) (s s' : BfStatus),
      exec fuel (.body stop) s = .ok s' → 0 ≤ s.jump_loop → 0 ≤ s'.jump_loop) := by
  intro fuel
  induction fuel with
  | zero =>
    refine ⟨?_, ?_, ?_⟩
    · intro c v s s' h; simp [exec] at h
    · intro s s' h; simp [exec] at h
    · intro stop s s' h; simp [exec] at h
  | succ n ih =>
    obtain ⟨ihv, ihl, ihb⟩ := ih
    refine ⟨?_, ?_, ?_⟩
    · intro c v s s' h hj
      rcases hp : next_op s c v with ⟨op, t⟩
      have ht : t.jump_loop = s.jump_loop := by
        have hq := next_op_snd s c v
        rw [hp] at hq
        rcases hq with hq | hq <;> simp at hq <;> subst hq <;> simp
      rw [exec, hp] at h
      cases op
      case loop_end_op =>
        simp only [ne_eq] at h
        split at h
        next hcond =>
          simp only [Except.ok.injEq] at h; subst h
          simp
          omega
        split at h
        · split at h
          next e he => simp at h
          next s1 he =>
            split at h
            · simp at h
            · simp only [Except.ok.injEq] at h; subst h
              have h1 := ihl t s1 he (by omega)
              simpa using h1
        · simp only [Except.ok.injEq] at h; subst h
          omega
      case monostate =>
        simp only [Except.ok.injEq] at h; subst h
        omega
      all_goals (simp only [Except.ok.injEq] at h; subst h)
      all_goals (split <;> simp <;> omega)
    · intro s s' h hj
      rw [exec] at h
      split at h
      · simp only [Except.ok.injEq] at h; subst h; exact hj
      · split at h
        · simp at h
        next top rest hst =>
          split at h
          next e he => simp at h
          next s1 he =>
            have h1 := ihb _ _ _ he (by simpa using hj)
            have h2 := ihl _ _ h (by simpa using h1)
            exact h2
    · intro stop s s' h hj
      rw [exec] at h
      split at h
      · split at h
        · simp at h
        next c hg =>
          split at h
          next e he => simp at h
          next s1 he =>
            have h1 := ihv _ _ _ _ he hj
            have h2 := ihb _ _ _ h (by simpa using h1)
            exact h2
      · simp only [Except.ok.injEq] at h; subst h; exact hj

/-- Divergence of the loop-end replay on an empty body: when the loop
stack top plus one already reaches the current instruction position and
the condition cell is nonzero, each pass of the outer while re-tests the
unchanged cell, so the recursion exhausts any fuel bound. -/
theorem exec_loop_empty_body_diverges (s : BfStatus) (top : Int) (rest : List Int)
    (hst : s.instruction_loop_ptr = top :: rest)
    (hip : ¬ top + 1 < s.instruction_ptr_current)
    (hc : ¬ s.tape s.tape_ptr = 0) :
    ∀ m : Nat, exec m .loop s = .error .outOfFuel := by
  intro m
  induction m with
  | zero => rfl
  | succ k ih =>
    rw [exec, if_neg hc]
    simp only [hst]
    cases k with
    | zero => rfl
    | succ j =>
      have hb : exec (j+1)
          (.body s.instruction_ptr_current)
          { s with instruction_ptr_current := top + 1,
                   instruction_loop_ptr := top :: rest } = .ok
          { s with instruction_ptr_current := top + 1,
                   instruction_loop_ptr := top :: rest } := by
        rw [exec]
        simp [hip]
      rw [hb]
      have hrestore : { s with instruction_loop_ptr := top :: rest } = s := by
        apply BfStatus.ext' <;> simp [hst]
      simp only [hrestore]
      exact ih

/-- C1: evaluation of the code at the failing input.  Feeding the four
characters '+', '[', '-', ']' to a fresh VM reaches the loop-end with
Skip Depth 0, the Loop Start Stack holding the committed index 1, and
the current cell 0.  The claim (and the spec) say the committed start
index is then popped; the code instead leaves the stack holding index 1,
because the pop statement sits inside the nonzero-cell branch of the
loop-end handler. -/
theorem c1_pop_missing_on_zero :
    (run_program 8 initStatus ['+', '[', '-', ']']).toOption.map
      (fun s => (s.instruction_loop_ptr, s.tape 0, s.jump_loop)) =
      some ([1], 0, 0) := by decide

/-- C2: a loop-end processed with Skip Depth 0 and a nonzero current
cell behaves exactly as the spec-worded algorithm spec_loop_end:
while the cell is nonzero, set the Instruction Pointer to the top of the
Loop Start Stack plus one and re-execute, one operation at a time
through the same dispatch, every buffered instruction up to but not
including the current loop-end position, re-testing the cell after each
pass; only once the cell is zero is the stack entry popped.  Moreover
the repeat cycle never appends to Instruction History. -/
theorem c2_loop_end_replays (s : BfStatus) (n : Nat)
    (hj : s.jump_loop = 0) (hc : s.tape s.tape_ptr ≠ 0) :
    run_vm (n+1) s ']' false = spec_loop_end n (appendIns s ']') ∧
    (∀ (m : Nat) (t u : BfStatus),
      spec_repeat m t = .ok u → u.instruction = t.instruction) := by
  constructor
  · rw [run_vm_rbr_replay n s hj hc, spec_loop_end, spec_repeat_eq]
  · intro m t u h
    rw [spec_repeat_eq] at h
    exact (exec_replay_instruction m).2.1 t u h

theorem c2_loop_end_replays_witness :
    run_vm 8
      { initStatus with
          tape := updateTape initStatus.tape 0 1,
          instruction := ['-'],
          instruction_ptr_current := 0,
          instruction_loop_ptr := [-1] }
      ']' false =
    spec_loop_end 7
      (appendIns
        { initStatus with
            tape := updateTape initStatus.tape 0 1,
            instruction := ['-'],
            instruction_ptr_current := 0,
            instruction_loop_ptr := [-1] }
        ']') :=
  (c2_loop_end_replays _ 7 rfl (by decide)).1

/-- C3: a loop-start with Skip Depth 0 and a nonzero current cell pushes
the current Instruction Pointer onto the Loop Start Stack and leaves
Skip Depth at 0; with Skip Depth 0 and the cell 0 it sets Skip Depth to
1 with the stack unchanged; with Skip Depth positive it increments Skip
Depth with the stack unchanged.  A loop-start commits to the stack or
bumps the skip counter, never both. -/
theorem c3_loop_start (s : BfStatus) (n : Nat) :
    (s.jump_loop = 0 → s.tape s.tape_ptr ≠ 0 →
      run_vm (n+1) s '[' false =
        .ok { appendIns s '[' with
              instruction_loop_ptr :=
                (s.instruction_ptr_current + 1) :: s.instruction_loop_ptr }) ∧
    (s.jump_loop = 0 → s.tape s.tape_ptr = 0 →
      run_vm (n+1) s '[' false = .ok { appendIns s '[' with jump_loop := 1 }) ∧
    (0 < s.jump_loop →
      run_vm (n+1) s '[' false =
        .ok { appendIns s '[' with jump_loop := s.jump_loop + 1 }) := by
  refine ⟨?_, ?_, ?_⟩
  · intro hj hc
    exact run_vm_lbr_push n s hj hc
  · intro hj hc
    have h := run_vm_lbr_skipstart n s hj hc
    simpa using h
  · intro hj
    exact run_vm_lbr_skipinc n s (by omega)

theorem c3_loop_start_witness :
    run_vm 1 { initStatus with tape := updateTape initStatus.tape 0 1 } '[' false =
      .ok { appendIns { initStatus with tape := updateTape initStatus.tape 0 1 } '[' with
            instruction_loop_ptr := [0] } :=
  (c3_loop_start { initStatus with tape := updateTape initStatus.tape 0 1 } 0).1 rfl (by decide)

/-- C4: the decoder bf_op_map is total, sending every character to one
of the eight operation tags or to the invalid tag monostate, and feeding
any character outside the eight operation characters leaves the entire
VM state unchanged: nothing is buffered, and tape, Tape Pointer, Loop
Start Stack and Skip Depth keep their values. -/
theorem c4_invalid_ignored (s : BfStatus) (c : Char) (n : Nat)
    (h : c ∉ ['+', '-', '>', '<', '.', ',', '[', ']']) :
    bf_op_map c = .monostate ∧ run_vm (n+1) s c false = .ok s ∧
    (∀ d : Char, bf_op_map d = .increment_value_op ∨ bf_op_map d = .decrement_value_op ∨
      bf_op_map d = .increment_ptr_op ∨ bf_op_map d = .decrement_ptr_op ∨
      bf_op_map d = .print_op ∨ bf_op_map d = .read_op ∨
      bf_op_map d = .loop_start_op ∨ bf_op_map d = .loop_end_op ∨
      bf_op_map d = .monostate) := by
  have hm : bf_op_map c = .monostate := by
    simp only [List.mem_cons, not_or] at h
    obtain ⟨h1, h2, h3, h4, h5, h6, h7, h8, _⟩ := h
    simp [bf_op_map, h1, h2, h3, h4, h5, h6, h7, h8]
  refine ⟨hm, ?_, ?_⟩
  · show exec _ _ _ = _
    rw [exec, next_op_invalid s c false hm]
  · intro d
    cases hd : bf_op_map d <;> simp

theorem c4_invalid_ignored_witness :
    bf_op_map ' ' = BfOp.monostate ∧ run_vm 1 initStatus ' ' false = .ok initStatus :=
  ⟨(c4_invalid_ignored initStatus ' ' 0 (by decide)).1,
   (c4_invalid_ignored initStatus ' ' 0 (by decide)).2.1⟩

/-- C5: with Skip Depth positive, each of the six non-bracket operations
only buffers its character and advances the Instruction Pointer: the
resulting state keeps tape, Tape Pointer, output and input exactly as
they were.  Consequently a loop entered on a zero cell runs its body
zero times: feeding '[', '+', '.', ']' to a fresh VM ends with cell 0
still 0, no output, and Skip Depth back at 0. -/
theorem c5_skip_suppresses (s : BfStatus) (c : Char) (n : Nat)
    (hj : 0 < s.jump_loop) (hc : c ∈ ['+', '-', '>', '<', '.', ',']) :
    run_vm (n+1) s c false = .ok (appendIns s c) ∧
    (run_program 8 initStatus ['[', '+', '.', ']']).toOption.map
      (fun t => (t.tape 0, t.output, t.jump_loop)) = some (0, [], 0) :=
  ⟨run_vm_simple_skip n s c hc (by omega), by decide⟩

theorem c5_skip_suppresses_witness :
    run_vm 1 { initStatus with jump_loop := 1 } '+' false =
      .ok (appendIns { initStatus with jump_loop := 1 } '+') :=
  (c5_skip_suppresses { initStatus with jump_loop := 1 } '+' 0 (by decide) (by decide)).1

/-- C6: while Skip Depth is positive, a loop-start adds exactly one to
it and a loop-end subtracts exactly one, with the Loop Start Stack and
all other state (beyond the buffered character) unchanged; processing
any balanced sequence of bracket operations during a skip restores Skip
Depth to exactly its prior value; and no interpreter step can drive Skip
Depth negative. -/
theorem c6_nested_skip (s : BfStatus) (n : Nat) (hj : 0 < s.jump_loop) :
    run_vm (n+1) s '[' false = .ok { appendIns s '[' with jump_loop := s.jump_loop + 1 } ∧
    run_vm (n+1) s ']' false = .ok { appendIns s ']' with jump_loop := s.jump_loop - 1 } ∧
    (∀ cs : List Char, BalancedBrackets cs →
      run_program (n+1) s cs =
        .ok { s with instruction := s.instruction ++ cs,
                     instruction_ptr_current := s.instruction_ptr_current + cs.length }) ∧
    (∀ (m : Nat) (k : ExecCall) (t u : BfStatus),
      exec m k t = .ok u → 0 ≤ t.jump_loop → 0 ≤ u.jump_loop) := by
  refine ⟨run_vm_lbr_skipinc n s (by omega), run_vm_rbr_skipdec n s (by omega), ?_, ?_⟩
  · intro cs hb
    exact run_program_balanced hb s n hj
  · intro m k t u h h0
    cases k with
    | vm c v => exact (exec_jump_nonneg m).1 c v t u h h0
    | loop => exact (exec_jump_nonneg m).2.1 t u h h0
    | body stop => exact (exec_jump_nonneg m).2.2 stop t u h h0

theorem c6_nested_skip_witness :
    run_vm 1 { initStatus with jump_loop := 1 } '[' false =
      .ok { appendIns { initStatus with jump_loop := 1 } '[' with jump_loop := 1 + 1 } ∧
    run_vm 1 { initStatus with jump_loop := 1 } ']' false =
      .ok { appendIns { initStatus with jump_loop := 1 } ']' with jump_loop := 1 - 1 } :=
  ⟨(c6_nested_skip { initStatus with jump_loop := 1 } 0 (by decide)).1,
   (c6_nested_skip { initStatus with jump_loop := 1 } 0 (by decide)).2.1⟩

/-- C7: feeding the seven characters '+', '[', '-', '>', '+', '<', ']'
to a fresh VM moves the value: cell 0 ends at 0 and cell 1 ends at 1. -/
theorem c7_move_value :
    (run_program 16 initStatus ['+', '[', '-', '>', '+', '<', ']']).toOption.map
      (fun s => (s.tape 0, s.tape 1)) = some (0, 1) := by decide

/-- C8: for every step budget, feeding '+', '[', ']' to a fresh VM runs
out of fuel: the loop-end replay cycle repeats over the empty body
forever because the condition cell is never changed, so control never
returns to the caller. -/
theorem c8_infinite_loop (n : Nat) :
    run_program n initStatus ['+', '[', ']'] = .error .outOfFuel := by
  cases n with
  | zero => rfl
  | succ m =>
    refine Eq.trans (run_program_cons_ok (m+1) initStatus _ '+' _
      (run_vm_plus m initStatus rfl)) ?_
    refine Eq.trans (run_program_cons_ok (m+1) _ _ '[' _
      (run_vm_lbr_push m _ rfl (by decide))) ?_
    rw [run_program, run_vm_rbr_replay m _ rfl (by decide)]
    rw [exec_loop_empty_body_diverges _ 1 [] (by decide) (by decide) (by decide) m]

/-- C9: cells are 8-bit: when not skipping, increment-value stores
(v + 1) mod 256 and decrement-value stores (v + 255) mod 256 at the Tape
Pointer; incrementing a cell holding 255 yields 0 and decrementing a
fresh (zero) cell yields 255; and every cell of a fresh tape reads 0 at
any signed index. -/
theorem c9_eight_bit_cells (s : BfStatus) (n : Nat) (hj : s.jump_loop = 0) :
    run_vm (n+1) s '+' false =
      .ok { appendIns s '+' with
            tape := updateTape s.tape s.tape_ptr ((s.tape s.tape_ptr + 1) % 256) } ∧
    run_vm (n+1) s '-' false =
      .ok { appendIns s '-' with
            tape := updateTape s.tape s.tape_ptr ((s.tape s.tape_ptr + 255) % 256) } ∧
    (run_vm 1 { initStatus with tape := updateTape initStatus.tape 0 255 } '+' false).toOption.map
      (fun t => t.tape 0) = some 0 ∧
    (run_vm 1 initStatus '-' false).toOption.map (fun t => t.tape 0) = some 255 ∧
    (∀ i : Int, initStatus.tape i = 0) :=
  ⟨run_vm_plus n s hj, run_vm_minus n s hj, by decide, by decide, fun _ => rfl⟩

theorem c9_eight_bit_cells_witness :
    run_vm 1 initStatus '+' false =
      .ok { appendIns initStatus '+' with
            tape := updateTape initStatus.tape initStatus.tape_ptr
              ((initStatus.tape initStatus.tape_ptr + 1) % 256) } :=
  (c9_eight_bit_cells initStatus 0 rfl).1

/-- C10: feeding '+' then ']' to a fresh VM makes the loop-end handler
read the top of the empty Loop Start Stack: under the guarded embedding
the run ends in the emptyStack error, so the unguarded stack access of
the source is reachable. -/
theorem c10_empty_stack_top_reachable :
    run_program 4 initStatus ['+', ']'] = .error .emptyStack := rfl

end PicoBf
